import Mathlib

/-!
Shallow embedding of the EKF-localization-with-known-correspondences program
(src/src/EKF_localization.cpp, src/src/config.h). Machine doubles are modelled
by real numbers; the trigonometric and matrix operations of the source map to
their Mathlib counterparts. Definitions follow the source line by line; the
only spec-modelled definition is `landmark_range_bearing` (its source file,
robot.cpp, is not among the provided sources).
-/

noncomputable section

namespace EKFL

open Real Matrix

/-- Configuration constant from config.h: `ALPHA1 = 0.1`. -/
def ALPHA1 : ℝ := 0.1

/-- Configuration constant from config.h: `ALPHA2 = 0`. -/
def ALPHA2 : ℝ := 0

/-- Configuration constant from config.h: `ALPHA3 = 0.0001`. -/
def ALPHA3 : ℝ := 0.0001

/-- Configuration constant from config.h: `ALPHA4 = 0.1`. -/
def ALPHA4 : ℝ := 0.1

/-- Configuration constant from config.h: `DETECTION_RANGE_ALPHA = 0.1`. -/
def DETECTION_RANGE_ALPHA : ℝ := 0.1

/-- Configuration constant from config.h: `DETECTION_ANGLE_SIGMA = 2*M_PI/180`. -/
def DETECTION_ANGLE_SIGMA : ℝ := 2 * Real.pi / 180

/-- Configuration constant from config.h: `ROBOT_YAW_VEL = 60*M_PI/180`. -/
def ROBOT_YAW_VEL : ℝ := 60 * Real.pi / 180

/-- The degeneracy threshold `EPS = 1e-4` declared at the top of `update`. -/
def EPS : ℝ := 1e-4

/-- A landmark observation: known world position `(x, y)` together with the
observed `range` and `bearing` (the fields of the `Landmark` value used by
`update`; the colour fields of landmark.h play no role in the filter). -/
structure Landmark where
  x : ℝ
  y : ℝ
  range : ℝ
  bearing : ℝ

/-- The filter state owned by `EKF_localization`: mean `m_mu ∈ ℝ³` and
covariance `m_cov ∈ ℝ^{3×3}`. -/
structure EKF where
  m_mu : Fin 3 → ℝ
  m_cov : Matrix (Fin 3) (Fin 3) ℝ

/-- The C `atan2(y, x)` function (used by the range/bearing geometry). -/
def atan2 (y x : ℝ) : ℝ :=
  if 0 < x then Real.arctan (y / x)
  else if x < 0 then
    (if 0 ≤ y then Real.arctan (y / x) + Real.pi else Real.arctan (y / x) - Real.pi)
  else
    (if 0 < y then Real.pi / 2 else if y < 0 then -(Real.pi / 2) else 0)

/-- Source function `EKF_localization::constrain_angle`: one conditional
shift by `2π`. -/
def constrain_angle (radian : ℝ) : ℝ :=
  if radian < -Real.pi then radian + 2 * Real.pi
  else if radian > Real.pi then radian - 2 * Real.pi
  else radian

/-- Modelled from the spec: `Robot::landmark_range_bearing` lives in robot.cpp,
which is not among the provided sources. Per the spec's collaborator contract
(§6) it returns the exact range and bearing from the candidate pose
`(x, y, th)` to the landmark's true position, by plain trigonometric geometry:
the Euclidean distance, and the world angle to the landmark minus the robot
heading (consistent with the measurement Jacobian in `update`, whose
bearing/heading entry is `−1`). -/
def landmark_range_bearing (l : Landmark) (x y th : ℝ) : ℝ × ℝ :=
  (Real.sqrt ((l.x - x) ^ 2 + (l.y - y) ^ 2), atan2 (l.y - y) (l.x - x) - th)

/-- The control-space motion-noise matrix `M` (lines 64–65 of the source). -/
def Mmat (v w : ℝ) : Matrix (Fin 2) (Fin 2) ℝ :=
  !![(ALPHA1 * |v| + ALPHA2 * |w|) ^ 2, 0;
     0, (ALPHA3 * |v| + ALPHA4 * |w|) ^ 2]

/-- The motion Jacobian `G` (state derivative), including the `|w| > EPS`
branch of `update` and its L'Hôpital counterpart. -/
def Gmat (theta v w dt : ℝ) : Matrix (Fin 3) (Fin 3) ℝ :=
  if |w| > EPS then
    !![1, 0, -(v / w) * Real.cos theta + (v / w) * Real.cos (theta + w * dt);
       0, 1, -(v / w) * Real.sin theta + (v / w) * Real.sin (theta + w * dt);
       0, 0, 1]
  else
    !![1, 0, -v * Real.sin theta * dt;
       0, 1, v * Real.cos theta * dt;
       0, 0, 1]

/-- The motion-noise Jacobian `V`, both branches of `update`. -/
def Vmat (theta v w dt : ℝ) : Matrix (Fin 3) (Fin 2) ℝ :=
  if |w| > EPS then
    !![(-Real.sin theta + Real.sin (theta + w * dt)) / w,
       v * (Real.sin theta - Real.sin (theta + w * dt)) / (w * w) +
         v * Real.cos (theta + w * dt) * dt / w;
       (Real.cos theta - Real.cos (theta + w * dt)) / w,
       -v * (Real.cos theta - Real.cos (theta + w * dt)) / (w * w) +
         v * Real.sin (theta + w * dt) * dt / w;
       0, dt]
  else
    !![Real.cos theta * dt, -v * Real.sin theta * dt * dt * 0.5;
       Real.sin theta * dt, v * Real.cos theta * dt * dt * 0.5;
       0, dt]

/-- The predicted mean `MU` of the prediction step of `update`
(lines 81–83 resp. 99–101 of the source). -/
def predictMu (mu : Fin 3 → ℝ) (v w dt : ℝ) : Fin 3 → ℝ :=
  if |w| > EPS then
    ![mu 0 - (v / w) * Real.sin (mu 2) + (v / w) * Real.sin (mu 2 + w * dt),
      mu 1 + (v / w) * Real.cos (mu 2) - (v / w) * Real.cos (mu 2 + w * dt),
      mu 2 + w * dt]
  else
    ![mu 0 + v * Real.cos (mu 2) * dt,
      mu 1 + v * Real.sin (mu 2) * dt,
      mu 2]

/-- The predicted covariance `COV = G·Σ·Gᵀ + V·M·Vᵀ` of the prediction step. -/
def predictCov (cov : Matrix (Fin 3) (Fin 3) ℝ) (theta v w dt : ℝ) :
    Matrix (Fin 3) (Fin 3) ℝ :=
  Gmat theta v w dt * cov * (Gmat theta v w dt)ᵀ +
    Vmat theta v w dt * Mmat v w * (Vmat theta v w dt)ᵀ

/-- The measurement Jacobian `H` of the correction loop (lines 117–122),
evaluated at the current mean; `range` is the expected range to the landmark. -/
def Hmat (l : Landmark) (mu : Fin 3 → ℝ) : Matrix (Fin 2) (Fin 3) ℝ :=
  !![-(l.x - mu 0) / (landmark_range_bearing l (mu 0) (mu 1) (mu 2)).1,
     -(l.y - mu 1) / (landmark_range_bearing l (mu 0) (mu 1) (mu 2)).1, 0;
     (l.y - mu 1) /
       ((landmark_range_bearing l (mu 0) (mu 1) (mu 2)).1 *
         (landmark_range_bearing l (mu 0) (mu 1) (mu 2)).1),
     -(l.x - mu 0) /
       ((landmark_range_bearing l (mu 0) (mu 1) (mu 2)).1 *
         (landmark_range_bearing l (mu 0) (mu 1) (mu 2)).1),
     -1]

/-- The measurement-noise matrix `Q` of the correction loop (lines 124–125). -/
def Qmat (l : Landmark) : Matrix (Fin 2) (Fin 2) ℝ :=
  !![(l.range * DETECTION_RANGE_ALPHA) ^ 2, 0;
     0, DETECTION_ANGLE_SIGMA ^ 2]

/-- The innovation covariance `S = H·Σ·Hᵀ + Q` (line 127). -/
def Smat (l : Landmark) (mu : Fin 3 → ℝ) (cov : Matrix (Fin 3) (Fin 3) ℝ) :
    Matrix (Fin 2) (Fin 2) ℝ :=
  Hmat l mu * cov * (Hmat l mu)ᵀ + Qmat l

/-- Eigen's closed-form inverse of a fixed-size 2×2 matrix: the adjugate
scaled by the reciprocal determinant (the semantics of `Matrix2d::inverse`). -/
def inv2 (A : Matrix (Fin 2) (Fin 2) ℝ) : Matrix (Fin 2) (Fin 2) ℝ :=
  (1 / (A 0 0 * A 1 1 - A 0 1 * A 1 0)) • !![A 1 1, -(A 0 1); -(A 1 0), A 0 0]

/-- The Kalman gain `K = Σ·Hᵀ·S⁻¹` (line 129). -/
def Kmat (l : Landmark) (mu : Fin 3 → ℝ) (cov : Matrix (Fin 3) (Fin 3) ℝ) :
    Matrix (Fin 3) (Fin 2) ℝ :=
  cov * (Hmat l mu)ᵀ * inv2 (Smat l mu cov)

/-- The fused (pre-wrap) mean `MU + K·(Z − ZHAT)` of one landmark fusion
(line 130); the bearing difference is the raw subtraction. -/
def fusedMu (l : Landmark) (mu : Fin 3 → ℝ) (cov : Matrix (Fin 3) (Fin 3) ℝ) :
    Fin 3 → ℝ :=
  mu + (Kmat l mu cov).mulVec
    (![l.range, l.bearing] -
      ![(landmark_range_bearing l (mu 0) (mu 1) (mu 2)).1,
        (landmark_range_bearing l (mu 0) (mu 1) (mu 2)).2])

/-- One iteration of the correction loop of `update` (lines 106–135): the
observation is fused iff `|l.range| > EPS`, the heading is wrapped by
`constrain_angle` immediately afterwards, and the covariance becomes
`(I − K·H)·Σ`. -/
def correctStep (l : Landmark) (mu : Fin 3 → ℝ)
    (cov : Matrix (Fin 3) (Fin 3) ℝ) : (Fin 3 → ℝ) × Matrix (Fin 3) (Fin 3) ℝ :=
  if |l.range| > EPS then
    (Function.update (fusedMu l mu cov) 2 (constrain_angle (fusedMu l mu cov 2)),
     (1 - Kmat l mu cov * Hmat l mu) * cov)
  else (mu, cov)

/-- Source function `EKF_localization::update`: prediction at the prior yaw
`m_mu 2`, then the
correction loop folded over the landmark list in order, then the results are
stored back into the state. -/
def update (st : EKF) (v w : ℝ) (landmarks : List Landmark) (dt : ℝ) : EKF :=
  ⟨(landmarks.foldl (fun p l => correctStep l p.1 p.2)
      (predictMu st.m_mu v w dt, predictCov st.m_cov (st.m_mu 2) v w dt)).1,
   (landmarks.foldl (fun p l => correctStep l p.1 p.2)
      (predictMu st.m_mu v w dt, predictCov st.m_cov (st.m_mu 2) v w dt)).2⟩

/-- The smaller eigenvalue of the (lower-triangle-read) symmetric 2×2 input of
`EKF_localization::ellipse`, in the closed form computed by Eigen's
`SelfAdjointEigenSolver`, whose eigenvalues are sorted in increasing order. -/
def eigMin (X : Matrix (Fin 2) (Fin 2) ℝ) : ℝ :=
  (X 0 0 + X 1 1) / 2 - Real.sqrt (((X 0 0 - X 1 1) / 2) ^ 2 + X 1 0 ^ 2)

/-- The larger eigenvalue of the symmetric 2×2 input of `ellipse`. -/
def eigMax (X : Matrix (Fin 2) (Fin 2) ℝ) : ℝ :=
  (X 0 0 + X 1 1) / 2 + Real.sqrt (((X 0 0 - X 1 1) / 2) ^ 2 + X 1 0 ^ 2)

/-- An eigenvector for the larger eigenvalue, as produced by the
eigendecomposition backing `ellipse` (for a diagonal input the solver returns
coordinate axes, matched to the increasing eigenvalue order). -/
def eigVecMax (X : Matrix (Fin 2) (Fin 2) ℝ) : Fin 2 → ℝ :=
  if X 1 0 = 0 then (if X 0 0 > X 1 1 then ![1, 0] else ![0, 1])
  else ![X 1 0, eigMax X - X 0 0]

/-- An eigenvector for the smaller eigenvalue of the input of `ellipse`. -/
def eigVecMin (X : Matrix (Fin 2) (Fin 2) ℝ) : Fin 2 → ℝ :=
  if X 1 0 = 0 then (if X 0 0 > X 1 1 then ![0, 1] else ![1, 0])
  else ![X 1 0, eigMin X - X 0 0]

/-- Source function `EKF_localization::ellipse` (lines 152–168): square
roots of the two
eigenvalues, the larger as major axis, and the orientation as the `atan2`
angle of the eigenvector column of the reported major axis. Returns
`(major, minor, theta)`. -/
def ellipse (X : Matrix (Fin 2) (Fin 2) ℝ) : ℝ × ℝ × ℝ :=
  if Real.sqrt (eigMin X) > Real.sqrt (eigMax X) then
    (Real.sqrt (eigMin X), Real.sqrt (eigMax X), atan2 (eigVecMin X 1) (eigVecMin X 0))
  else
    (Real.sqrt (eigMax X), Real.sqrt (eigMin X), atan2 (eigVecMax X 1) (eigVecMax X 0))

/-- Concrete all-zero state used by the witness theorems. -/
def zeroState : EKF := ⟨![0, 0, 0], 0⟩

/-- Concrete valid landmark observation used by witnesses. -/
def lmA : Landmark := ⟨3, 4, 5, 0⟩

/-- Concrete landmark observation with negative range, used by witnesses. -/
def lmNeg : Landmark := ⟨3, 4, -5, 0⟩

/-- Concrete degenerate (zero-range) landmark observation. -/
def lmZero : Landmark := ⟨1, 2, 0, 0⟩

/-! ### Shared helper lemmas -/

lemma update_nil_mu (st : EKF) (v w dt : ℝ) :
    (update st v w [] dt).m_mu = predictMu st.m_mu v w dt := rfl

lemma update_nil_cov (st : EKF) (v w dt : ℝ) :
    (update st v w [] dt).m_cov = predictCov st.m_cov (st.m_mu 2) v w dt := rfl

/-! ### Claims -/

/-- Claim C1: when `|w| > 1e-4`, the prediction step of `update` moves the
mean by the circular-arc closed form and propagates the covariance as
`G·Σ·Gᵀ + V·M·Vᵀ` where `M` is the diagonal control-noise matrix built from
`ALPHA1..ALPHA4` and `G`, `V` are the arc-motion Jacobians evaluated at the
prior mean: the stated `G` column is the derivative of the predicted mean in
the heading, and the stated `V` columns are its derivatives in `v` and `w`. -/
theorem arc_prediction (st : EKF) (v w dt : ℝ) (h : |w| > 1e-4) :
    (update st v w [] dt).m_mu =
      ![st.m_mu 0 - (v / w) * Real.sin (st.m_mu 2) + (v / w) * Real.sin (st.m_mu 2 + w * dt),
        st.m_mu 1 + (v / w) * Real.cos (st.m_mu 2) - (v / w) * Real.cos (st.m_mu 2 + w * dt),
        st.m_mu 2 + w * dt] ∧
    (update st v w [] dt).m_cov =
      !![1, 0, -(v / w) * Real.cos (st.m_mu 2) + (v / w) * Real.cos (st.m_mu 2 + w * dt);
         0, 1, -(v / w) * Real.sin (st.m_mu 2) + (v / w) * Real.sin (st.m_mu 2 + w * dt);
         0, 0, 1] * st.m_cov *
        !![1, 0, -(v / w) * Real.cos (st.m_mu 2) + (v / w) * Real.cos (st.m_mu 2 + w * dt);
           0, 1, -(v / w) * Real.sin (st.m_mu 2) + (v / w) * Real.sin (st.m_mu 2 + w * dt);
           0, 0, 1]ᵀ +
      !![(-Real.sin (st.m_mu 2) + Real.sin (st.m_mu 2 + w * dt)) / w,
         v * (Real.sin (st.m_mu 2) - Real.sin (st.m_mu 2 + w * dt)) / (w * w) +
           v * Real.cos (st.m_mu 2 + w * dt) * dt / w;
         (Real.cos (st.m_mu 2) - Real.cos (st.m_mu 2 + w * dt)) / w,
         -v * (Real.cos (st.m_mu 2) - Real.cos (st.m_mu 2 + w * dt)) / (w * w) +
           v * Real.sin (st.m_mu 2 + w * dt) * dt / w;
         0, dt] *
        !![(ALPHA1 * |v| + ALPHA2 * |w|) ^ 2, 0;
           0, (ALPHA3 * |v| + ALPHA4 * |w|) ^ 2] *
        !![(-Real.sin (st.m_mu 2) + Real.sin (st.m_mu 2 + w * dt)) / w,
           v * (Real.sin (st.m_mu 2) - Real.sin (st.m_mu 2 + w * dt)) / (w * w) +
             v * Real.cos (st.m_mu 2 + w * dt) * dt / w;
           (Real.cos (st.m_mu 2) - Real.cos (st.m_mu 2 + w * dt)) / w,
           -v * (Real.cos (st.m_mu 2) - Real.cos (st.m_mu 2 + w * dt)) / (w * w) +
             v * Real.sin (st.m_mu 2 + w * dt) * dt / w;
           0, dt]ᵀ ∧
    HasDerivAt (fun t => st.m_mu 0 - (v / w) * Real.sin t + (v / w) * Real.sin (t + w * dt))
      (-(v / w) * Real.cos (st.m_mu 2) + (v / w) * Real.cos (st.m_mu 2 + w * dt)) (st.m_mu 2) ∧
    HasDerivAt (fun t => st.m_mu 1 + (v / w) * Real.cos t - (v / w) * Real.cos (t + w * dt))
      (-(v / w) * Real.sin (st.m_mu 2) + (v / w) * Real.sin (st.m_mu 2 + w * dt)) (st.m_mu 2) ∧
    HasDerivAt (fun s => st.m_mu 0 - (s / w) * Real.sin (st.m_mu 2) +
        (s / w) * Real.sin (st.m_mu 2 + w * dt))
      ((-Real.sin (st.m_mu 2) + Real.sin (st.m_mu 2 + w * dt)) / w) v ∧
    HasDerivAt (fun s => st.m_mu 1 + (s / w) * Real.cos (st.m_mu 2) -
        (s / w) * Real.cos (st.m_mu 2 + w * dt))
      ((Real.cos (st.m_mu 2) - Real.cos (st.m_mu 2 + w * dt)) / w) v ∧
    HasDerivAt (fun u => st.m_mu 0 - (v / u) * Real.sin (st.m_mu 2) +
        (v / u) * Real.sin (st.m_mu 2 + u * dt))
      (v * (Real.sin (st.m_mu 2) - Real.sin (st.m_mu 2 + w * dt)) / (w * w) +
        v * Real.cos (st.m_mu 2 + w * dt) * dt / w) w ∧
    HasDerivAt (fun u => st.m_mu 1 + (v / u) * Real.cos (st.m_mu 2) -
        (v / u) * Real.cos (st.m_mu 2 + u * dt))
      (-v * (Real.cos (st.m_mu 2) - Real.cos (st.m_mu 2 + w * dt)) / (w * w) +
        v * Real.sin (st.m_mu 2 + w * dt) * dt / w) w := by
  have hE : |w| > EPS := h
  have hw : w ≠ 0 := by
    intro h0
    rw [h0] at h
    norm_num at h
  set θ := st.m_mu 2 with hθ
  refine ⟨?_, ?_, ?_, ?_, ?_, ?_, ?_, ?_⟩
  · rw [update_nil_mu]
    simp only [predictMu]
    rw [if_pos hE]
  · rw [update_nil_cov, predictCov]
    simp only [Gmat, Vmat, Mmat]
    rw [if_pos hE, if_pos hE]
  · have h1 : HasDerivAt (fun t : ℝ => t + w * dt) 1 θ := (hasDerivAt_id θ).add_const _
    have h2 := (h1.sin).const_mul (v / w)
    have h3 := (Real.hasDerivAt_sin θ).const_mul (v / w)
    have h4 := ((hasDerivAt_const θ (st.m_mu 0)).sub h3).add h2
    convert h4 using 1
    ring
  · have h1 : HasDerivAt (fun t : ℝ => t + w * dt) 1 θ := (hasDerivAt_id θ).add_const _
    have h2 := (h1.cos).const_mul (v / w)
    have h3 := (Real.hasDerivAt_cos θ).const_mul (v / w)
    have h4 := ((hasDerivAt_const θ (st.m_mu 1)).add h3).sub h2
    convert h4 using 1
    ring
  · have h1 := ((hasDerivAt_id v).div_const w).mul_const (Real.sin θ)
    have h2 := ((hasDerivAt_id v).div_const w).mul_const (Real.sin (θ + w * dt))
    have h3 := ((hasDerivAt_const v (st.m_mu 0)).sub h1).add h2
    convert h3 using 1
    ring
  · have h1 := ((hasDerivAt_id v).div_const w).mul_const (Real.cos θ)
    have h2 := ((hasDerivAt_id v).div_const w).mul_const (Real.cos (θ + w * dt))
    have h3 := ((hasDerivAt_const v (st.m_mu 1)).add h1).sub h2
    convert h3 using 1
    ring
  · have hq : HasDerivAt (fun u : ℝ => v / u) ((0 * w - v * 1) / w ^ 2) w :=
      (hasDerivAt_const w v).div (hasDerivAt_id w) hw
    have h1 := hq.mul_const (Real.sin θ)
    have ha : HasDerivAt (fun u : ℝ => θ + u * dt) (1 * dt) w :=
      ((hasDerivAt_id w).mul_const dt).const_add θ
    have h2 := hq.mul ha.sin
    have h3 := ((hasDerivAt_const w (st.m_mu 0)).sub h1).add h2
    convert h3 using 1
    field_simp
    ring
  · have hq : HasDerivAt (fun u : ℝ => v / u) ((0 * w - v * 1) / w ^ 2) w :=
      (hasDerivAt_const w v).div (hasDerivAt_id w) hw
    have h1 := hq.mul_const (Real.cos θ)
    have ha : HasDerivAt (fun u : ℝ => θ + u * dt) (1 * dt) w :=
      ((hasDerivAt_id w).mul_const dt).const_add θ
    have h2 := hq.mul ha.cos
    have h3 := ((hasDerivAt_const w (st.m_mu 1)).add h1).sub h2
    convert h3 using 1
    field_simp
    ring

/-- Witness for C1 at the concrete input `w = 1`, `v = 1`, `dt = 1`,
starting from the all-zero state. -/
theorem arc_prediction_witness :
    |(1 : ℝ)| > 1e-4 ∧ (update zeroState 1 1 [] 1).m_mu 2 = 1 := by
  refine ⟨by norm_num, ?_⟩
  have h := arc_prediction zeroState 1 1 1 (by norm_num)
  rw [h.1]
  norm_num [zeroState]

/-- Claim C2: when `|w| ≤ 1e-4`, the prediction step of `update` uses the
straight-line limiting forms: the mean moves by `(v·cosθ·dt, v·sinθ·dt, 0)`
and the simplified Jacobians `G`, `V` enter the covariance propagation
(their nontrivial entries again being derivatives of the mean map); in
particular (see the witness) for `w = 0`, `v = 100`, `dt = 0.5`, `θ = 0` and
no landmarks, the stored `x` increases by exactly `50` and `y` is unchanged. -/
theorem line_prediction (st : EKF) (v w dt : ℝ) (h : |w| ≤ 1e-4) :
    (update st v w [] dt).m_mu =
      ![st.m_mu 0 + v * Real.cos (st.m_mu 2) * dt,
        st.m_mu 1 + v * Real.sin (st.m_mu 2) * dt,
        st.m_mu 2] ∧
    (update st v w [] dt).m_cov =
      !![1, 0, -v * Real.sin (st.m_mu 2) * dt;
         0, 1, v * Real.cos (st.m_mu 2) * dt;
         0, 0, 1] * st.m_cov *
        !![1, 0, -v * Real.sin (st.m_mu 2) * dt;
           0, 1, v * Real.cos (st.m_mu 2) * dt;
           0, 0, 1]ᵀ +
      !![Real.cos (st.m_mu 2) * dt, -v * Real.sin (st.m_mu 2) * dt * dt * 0.5;
         Real.sin (st.m_mu 2) * dt, v * Real.cos (st.m_mu 2) * dt * dt * 0.5;
         0, dt] *
        !![(ALPHA1 * |v| + ALPHA2 * |w|) ^ 2, 0;
           0, (ALPHA3 * |v| + ALPHA4 * |w|) ^ 2] *
        !![Real.cos (st.m_mu 2) * dt, -v * Real.sin (st.m_mu 2) * dt * dt * 0.5;
           Real.sin (st.m_mu 2) * dt, v * Real.cos (st.m_mu 2) * dt * dt * 0.5;
           0, dt]ᵀ ∧
    HasDerivAt (fun t => st.m_mu 0 + v * Real.cos t * dt)
      (-v * Real.sin (st.m_mu 2) * dt) (st.m_mu 2) ∧
    HasDerivAt (fun t => st.m_mu 1 + v * Real.sin t * dt)
      (v * Real.cos (st.m_mu 2) * dt) (st.m_mu 2) ∧
    HasDerivAt (fun s => st.m_mu 0 + s * Real.cos (st.m_mu 2) * dt)
      (Real.cos (st.m_mu 2) * dt) v ∧
    HasDerivAt (fun s => st.m_mu 1 + s * Real.sin (st.m_mu 2) * dt)
      (Real.sin (st.m_mu 2) * dt) v := by
  have hE : ¬ (|w| > EPS) := not_lt.mpr h
  set θ := st.m_mu 2 with hθ
  refine ⟨?_, ?_, ?_, ?_, ?_, ?_⟩
  · rw [update_nil_mu]
    simp only [predictMu]
    rw [if_neg hE]
  · rw [update_nil_cov, predictCov]
    simp only [Gmat, Vmat, Mmat]
    rw [if_neg hE, if_neg hE]
  · have h1 := ((Real.hasDerivAt_cos θ).const_mul v).mul_const dt
    have h2 := (hasDerivAt_const θ (st.m_mu 0)).add h1
    convert h2 using 1
    ring
  · have h1 := ((Real.hasDerivAt_sin θ).const_mul v).mul_const dt
    have h2 := (hasDerivAt_const θ (st.m_mu 1)).add h1
    convert h2 using 1
    ring
  · have h1 := ((hasDerivAt_id v).mul_const (Real.cos θ)).mul_const dt
    have h2 := (hasDerivAt_const v (st.m_mu 0)).add h1
    convert h2 using 1
    ring
  · have h1 := ((hasDerivAt_id v).mul_const (Real.sin θ)).mul_const dt
    have h2 := (hasDerivAt_const v (st.m_mu 1)).add h1
    convert h2 using 1
    ring

/-- Witness for C2 at the spec's concrete instance: `w = 0`, `v = 100`,
`dt = 0.5`, heading `0` and no landmarks — `x` grows by exactly `50`,
`y` and the heading are unchanged. -/
theorem line_prediction_witness :
    |(0 : ℝ)| ≤ 1e-4 ∧
    (update zeroState 100 0 [] 0.5).m_mu 0 = zeroState.m_mu 0 + 50 ∧
    (update zeroState 100 0 [] 0.5).m_mu 1 = zeroState.m_mu 1 ∧
    (update zeroState 100 0 [] 0.5).m_mu 2 = zeroState.m_mu 2 := by
  have h := line_prediction zeroState 100 0 0.5 (by norm_num)
  refine ⟨by norm_num, ?_, ?_, ?_⟩
  · rw [h.1]
    norm_num [zeroState]
  · rw [h.1]
    norm_num [zeroState]
  · rw [h.1]
    norm_num [zeroState]

lemma inv2_mul_cancel (A : Matrix (Fin 2) (Fin 2) ℝ)
    (hA : A 0 0 * A 1 1 - A 0 1 * A 1 0 ≠ 0) :
    A * inv2 A = 1 ∧ inv2 A * A = 1 := by
  constructor <;>
  · ext i j
    fin_cases i <;> fin_cases j <;>
      · simp [inv2, Matrix.mul_apply, Fin.sum_univ_two, Matrix.one_apply]
        field_simp
        try ring

lemma correctStep_skip (l : Landmark) (mu : Fin 3 → ℝ)
    (cov : Matrix (Fin 3) (Fin 3) ℝ) (h : |l.range| < 1e-4) :
    correctStep l mu cov = (mu, cov) := by
  have hE : ¬ (|l.range| > EPS) := not_lt.mpr (le_of_lt h)
  simp only [correctStep]
  rw [if_neg hE]

/-- Claim C3: observations are processed one at a time in list order; for
every observation with `|range| > 1e-4` the correction computes
`S = H·Σ·Hᵀ + Q` with `Q = diag((range·DETECTION_RANGE_ALPHA)², DETECTION_ANGLE_SIGMA²)`,
the gain `K = Σ·Hᵀ·S⁻¹` (with `inv2` the genuine 2×2 inverse whenever the
determinant is nonzero), the mean update `μ + K·(z − ẑ)` with the raw
(unwrapped) bearing difference and `ẑ` computed from the current mean, and
the covariance update `(I − K·H)·Σ`. -/
theorem correction_step_spec :
    (∀ (st : EKF) (v w dt : ℝ) (ls : List Landmark),
      update st v w ls dt =
        ⟨(ls.foldl (fun p l => correctStep l p.1 p.2)
            (predictMu st.m_mu v w dt, predictCov st.m_cov (st.m_mu 2) v w dt)).1,
         (ls.foldl (fun p l => correctStep l p.1 p.2)
            (predictMu st.m_mu v w dt, predictCov st.m_cov (st.m_mu 2) v w dt)).2⟩) ∧
    (∀ (l : Landmark) (mu : Fin 3 → ℝ) (cov : Matrix (Fin 3) (Fin 3) ℝ),
      |l.range| > 1e-4 →
        correctStep l mu cov =
          (Function.update (fusedMu l mu cov) 2 (constrain_angle (fusedMu l mu cov 2)),
           (1 - Kmat l mu cov * Hmat l mu) * cov)) ∧
    (∀ (l : Landmark) (mu : Fin 3 → ℝ) (cov : Matrix (Fin 3) (Fin 3) ℝ),
      Smat l mu cov =
        Hmat l mu * cov * (Hmat l mu)ᵀ +
          !![(l.range * DETECTION_RANGE_ALPHA) ^ 2, 0; 0, DETECTION_ANGLE_SIGMA ^ 2] ∧
      Kmat l mu cov = cov * (Hmat l mu)ᵀ * inv2 (Smat l mu cov) ∧
      fusedMu l mu cov =
        mu + (Kmat l mu cov).mulVec
          (![l.range, l.bearing] -
            ![(landmark_range_bearing l (mu 0) (mu 1) (mu 2)).1,
              (landmark_range_bearing l (mu 0) (mu 1) (mu 2)).2])) ∧
    (∀ A : Matrix (Fin 2) (Fin 2) ℝ, A.det ≠ 0 → A * inv2 A = 1 ∧ inv2 A * A = 1) := by
  refine ⟨fun st v w dt ls => rfl, ?_, fun l mu cov => ⟨rfl, rfl, rfl⟩, ?_⟩
  · intro l mu cov h
    have hE : |l.range| > EPS := h
    simp only [correctStep]
    rw [if_pos hE]
  · intro A hA
    have hA2 : A 0 0 * A 1 1 - A 0 1 * A 1 0 ≠ 0 := by
      rwa [Matrix.det_fin_two] at hA
    exact inv2_mul_cancel A hA2

/-- Witness for C3 at the concrete observation `lmA` (range 5) from the
all-zero state: the correction branch is taken, and `inv2` inverts a
concrete nonsingular matrix. -/
theorem correction_step_spec_witness :
    |lmA.range| > 1e-4 ∧
    correctStep lmA ![0, 0, 0] 0 =
      (Function.update (fusedMu lmA ![0, 0, 0] 0) 2
         (constrain_angle (fusedMu lmA ![0, 0, 0] 0 2)),
       (1 - Kmat lmA ![0, 0, 0] 0 * Hmat lmA ![0, 0, 0]) * 0) ∧
    (!![(2 : ℝ), 0; 0, 3].det ≠ 0 ∧
      !![(2 : ℝ), 0; 0, 3] * inv2 !![(2 : ℝ), 0; 0, 3] = 1) := by
  have hdet : (!![(2 : ℝ), 0; 0, 3]).det ≠ 0 := by
    rw [Matrix.det_fin_two]
    norm_num
  refine ⟨by norm_num [lmA], ?_, hdet, (correction_step_spec.2.2.2 _ hdet).1⟩
  exact correction_step_spec.2.1 lmA ![0, 0, 0] 0 (by norm_num [lmA])

/-- Claim C6: an observation with `|range| < 1e-4` (in particular range 0) is
silently skipped: the step leaves `(μ, Σ)` unchanged, and removing such an
observation from anywhere in the landmark list does not change the result of
`update` — the remaining observations are still processed. -/
theorem small_range_skipped :
    (∀ (l : Landmark) (mu : Fin 3 → ℝ) (cov : Matrix (Fin 3) (Fin 3) ℝ),
      |l.range| < 1e-4 → correctStep l mu cov = (mu, cov)) ∧
    (∀ (st : EKF) (v w dt : ℝ) (ls1 ls2 : List Landmark) (l : Landmark),
      |l.range| < 1e-4 →
        update st v w (ls1 ++ l :: ls2) dt = update st v w (ls1 ++ ls2) dt) := by
  refine ⟨correctStep_skip, ?_⟩
  intro st v w dt ls1 ls2 l h
  have key : ∀ (p : (Fin 3 → ℝ) × Matrix (Fin 3) (Fin 3) ℝ),
      correctStep l p.1 p.2 = p := by
    intro p
    rw [correctStep_skip l p.1 p.2 h]
  have hfold :
      (ls1 ++ l :: ls2).foldl (fun p x => correctStep x p.1 p.2)
          (predictMu st.m_mu v w dt, predictCov st.m_cov (st.m_mu 2) v w dt) =
        (ls1 ++ ls2).foldl (fun p x => correctStep x p.1 p.2)
          (predictMu st.m_mu v w dt, predictCov st.m_cov (st.m_mu 2) v w dt) := by
    simp only [List.foldl_append, List.foldl_cons, key]
  simp only [update, hfold]

/-- Witness for C6: the zero-range observation `lmZero` is skipped and its
presence in the landmark list does not change the result of `update`. -/
theorem small_range_skipped_witness :
    |lmZero.range| < 1e-4 ∧
    correctStep lmZero ![1, 2, 3] 1 = (![1, 2, 3], 1) ∧
    update zeroState 1 1 [lmZero] 1 = update zeroState 1 1 [] 1 := by
  refine ⟨by norm_num [lmZero], ?_, ?_⟩
  · exact small_range_skipped.1 lmZero ![1, 2, 3] 1 (by norm_num [lmZero])
  · exact small_range_skipped.2 zeroState 1 1 1 [] [] lmZero (by norm_num [lmZero])

/-- Claim C10: an observation whose range is negative with magnitude above
`1e-4` is fused exactly like a valid one — the degeneracy test only compares
the absolute value, the correction branch runs, and the range-variance term
squares the (negative) observed range, so `Q 0 0` is strictly positive; no
`range ≥ 0` contract is checked anywhere. -/
theorem negative_range_fused (l : Landmark) (mu : Fin 3 → ℝ)
    (cov : Matrix (Fin 3) (Fin 3) ℝ) (h : l.range < -(1e-4)) :
    correctStep l mu cov =
      (Function.update (fusedMu l mu cov) 2 (constrain_angle (fusedMu l mu cov 2)),
       (1 - Kmat l mu cov * Hmat l mu) * cov) ∧
    Qmat l 0 0 = (l.range * DETECTION_RANGE_ALPHA) ^ 2 ∧
    0 < Qmat l 0 0 := by
  have hneg : l.range < 0 := by nlinarith
  have hE : |l.range| > EPS := by
    rw [abs_of_neg hneg]
    show EPS < -l.range
    rw [EPS]
    nlinarith
  refine ⟨?_, ?_, ?_⟩
  · simp only [correctStep]
    rw [if_pos hE]
  · simp [Qmat]
  · have hprod : l.range * DETECTION_RANGE_ALPHA < 0 := by
      rw [DETECTION_RANGE_ALPHA]
      nlinarith
    have hq : Qmat l 0 0 = (l.range * DETECTION_RANGE_ALPHA) ^ 2 := by simp [Qmat]
    rw [hq]
    nlinarith

/-- Witness for C10: the range −5 observation `lmNeg` is fused, not skipped,
and its range-variance term is strictly positive. -/
theorem negative_range_fused_witness :
    lmNeg.range < -(1e-4) ∧
    correctStep lmNeg ![0, 0, 0] 0 =
      (Function.update (fusedMu lmNeg ![0, 0, 0] 0) 2
         (constrain_angle (fusedMu lmNeg ![0, 0, 0] 0 2)),
       (1 - Kmat lmNeg ![0, 0, 0] 0 * Hmat lmNeg ![0, 0, 0]) * 0) ∧
    0 < Qmat lmNeg 0 0 := by
  have h := negative_range_fused lmNeg ![0, 0, 0] 0 (by norm_num [lmNeg])
  exact ⟨by norm_num [lmNeg], h.1, h.2.2⟩

lemma constrain_angle_mem (y : ℝ) (h1 : -(3 * Real.pi) ≤ y) (h2 : y ≤ 3 * Real.pi) :
    -Real.pi ≤ constrain_angle y ∧ constrain_angle y ≤ Real.pi := by
  have hp := Real.pi_pos
  unfold constrain_angle
  split_ifs with ha hb
  · constructor <;> linarith
  · constructor <;> linarith
  · push_neg at ha hb
    constructor <;> linarith

lemma constrain_angle_idem_on (y : ℝ) (h1 : -Real.pi ≤ y) (h2 : y ≤ Real.pi) :
    constrain_angle y = y := by
  unfold constrain_angle
  rw [if_neg (not_lt.mpr h1), if_neg (not_lt.mpr h2)]

lemma trace_VMV_nonneg (V : Matrix (Fin 3) (Fin 2) ℝ) (a b : ℝ)
    (ha : 0 ≤ a) (hb : 0 ≤ b) :
    0 ≤ Matrix.trace (V * !![a, 0; 0, b] * Vᵀ) := by
  have hdiag : ∀ i : Fin 3, (V * !![a, 0; 0, b] * Vᵀ) i i =
      a * V i 0 ^ 2 + b * V i 1 ^ 2 := by
    intro i
    simp [Matrix.mul_apply, Fin.sum_univ_two, Matrix.transpose_apply]
    ring
  simp only [Matrix.trace, Matrix.diag]
  apply Finset.sum_nonneg
  intro i _
  rw [hdiag i]
  have h1 := mul_nonneg ha (sq_nonneg (V i 0))
  have h2 := mul_nonneg hb (sq_nonneg (V i 1))
  linarith

/-- Claim C7 (amended): for every `θ` in `(−3π, 3π)`, `constrain_angle θ`
lies in the closed interval `[−π, π]` (not the half-open `(−π, π]`: the
boundary input `−π` is returned unchanged, see the counterexample), it is
congruent to `θ` modulo `2π`, and `constrain_angle` is idempotent there. -/
theorem constrain_angle_spec (θ : ℝ) (h1 : -(3 * Real.pi) < θ) (h2 : θ < 3 * Real.pi) :
    (-Real.pi ≤ constrain_angle θ ∧ constrain_angle θ ≤ Real.pi) ∧
    (∃ k : ℤ, constrain_angle θ - θ = 2 * Real.pi * k) ∧
    constrain_angle (constrain_angle θ) = constrain_angle θ := by
  have hb := constrain_angle_mem θ (le_of_lt h1) (le_of_lt h2)
  refine ⟨hb, ?_, constrain_angle_idem_on _ hb.1 hb.2⟩
  unfold constrain_angle
  split_ifs
  · exact ⟨1, by push_cast; ring⟩
  · exact ⟨-1, by push_cast; ring⟩
  · exact ⟨0, by push_cast; ring⟩

/-- Witness for C7 at `θ = 1`. -/
theorem constrain_angle_spec_witness :
    (-(3 * Real.pi) < 1 ∧ (1 : ℝ) < 3 * Real.pi) ∧
    ((-Real.pi ≤ constrain_angle 1 ∧ constrain_angle 1 ≤ Real.pi) ∧
     (∃ k : ℤ, constrain_angle 1 - 1 = 2 * Real.pi * k) ∧
     constrain_angle (constrain_angle 1) = constrain_angle 1) := by
  have hp : -(3 * Real.pi) < 1 := by nlinarith [Real.pi_pos]
  have hq : (1 : ℝ) < 3 * Real.pi := by nlinarith [Real.pi_gt_three]
  exact ⟨⟨hp, hq⟩, constrain_angle_spec 1 hp hq⟩

/-- Counterexample to C7 as stated: `θ = −π` lies in `(−3π, 3π)`, but
`constrain_angle (−π) = −π`, which is not in the half-open interval
`(−π, π]` the claim asserts. -/
theorem constrain_angle_boundary_cex :
    (-(3 * Real.pi) < -Real.pi ∧ -Real.pi < 3 * Real.pi) ∧
    constrain_angle (-Real.pi) = -Real.pi ∧
    ¬ (-Real.pi < constrain_angle (-Real.pi)) := by
  have hp := Real.pi_pos
  have he : constrain_angle (-Real.pi) = -Real.pi := by
    unfold constrain_angle
    rw [if_neg (not_lt.mpr le_rfl), if_neg (by intro hh; rw [gt_iff_lt] at hh; linarith)]
  refine ⟨⟨by linarith, by linarith⟩, he, ?_⟩
  rw [he]
  exact lt_irrefl _

/-- Claim C4 (amended): the heading is passed through `constrain_angle`
immediately after every single landmark fusion, and that wrap sends any
pre-wrap heading within `[−3π, 3π]` into `[−π, π]`; however, a call to
`update` whose landmark list is empty (or all-skipped) stores the raw
unwrapped prediction `θ + w·dt`, which need not lie in `(−π, π]` (see the
counterexample). -/
theorem heading_wrap_spec :
    (∀ (l : Landmark) (mu : Fin 3 → ℝ) (cov : Matrix (Fin 3) (Fin 3) ℝ),
      |l.range| > 1e-4 →
        (correctStep l mu cov).1 2 = constrain_angle (fusedMu l mu cov 2)) ∧
    (∀ y : ℝ, -(3 * Real.pi) ≤ y → y ≤ 3 * Real.pi →
      -Real.pi ≤ constrain_angle y ∧ constrain_angle y ≤ Real.pi) ∧
    (∀ (st : EKF) (v w dt : ℝ), |w| > 1e-4 →
      (update st v w [] dt).m_mu 2 = st.m_mu 2 + w * dt) := by
  refine ⟨?_, fun y h1 h2 => constrain_angle_mem y h1 h2, ?_⟩
  · intro l mu cov h
    have hE : |l.range| > EPS := h
    simp only [correctStep]
    rw [if_pos hE]
    simp
  · intro st v w dt h
    have hE : |w| > EPS := h
    rw [update_nil_mu]
    simp only [predictMu]
    rw [if_pos hE]
    simp

/-- Witness for C4's amended statement at concrete inputs. -/
theorem heading_wrap_spec_witness :
    |lmA.range| > 1e-4 ∧
    (correctStep lmA ![0, 0, 0] 0).1 2 = constrain_angle (fusedMu lmA ![0, 0, 0] 0 2) ∧
    (-(3 * Real.pi) ≤ (0 : ℝ) ∧ (0 : ℝ) ≤ 3 * Real.pi) ∧
    (-Real.pi ≤ constrain_angle 0 ∧ constrain_angle 0 ≤ Real.pi) ∧
    |(1 : ℝ)| > 1e-4 ∧
    (update zeroState 0 1 [] 1).m_mu 2 = zeroState.m_mu 2 + 1 * 1 := by
  have hp := Real.pi_pos
  exact ⟨by norm_num [lmA],
    heading_wrap_spec.1 lmA ![0, 0, 0] 0 (by norm_num [lmA]),
    ⟨by linarith, by linarith⟩,
    heading_wrap_spec.2.1 0 (by linarith) (by linarith),
    by norm_num,
    heading_wrap_spec.2.2 zeroState 0 1 1 (by norm_num)⟩

/-- Counterexample to C4 as stated: starting from heading `3` and calling
`update` with `w = 1`, `dt = 1` and an empty landmark list, the stored
heading is the unwrapped `4`, which is greater than `π` and hence outside
`(−π, π]`. -/
theorem heading_unwrapped_cex :
    (update ⟨![0, 0, 3], 0⟩ 0 1 [] 1).m_mu 2 = 4 ∧
    Real.pi < (update ⟨![0, 0, 3], 0⟩ 0 1 [] 1).m_mu 2 := by
  have h4 : (update (⟨![0, 0, 3], 0⟩ : EKF) 0 1 [] 1).m_mu 2 = 4 := by
    rw [update_nil_mu]
    simp only [predictMu]
    rw [if_pos (by rw [EPS]; norm_num : |(1 : ℝ)| > EPS)]
    norm_num
  refine ⟨h4, ?_⟩
  rw [h4]
  nlinarith [Real.pi_lt_d2]

/-- Claim C9: a pure rotation in place (`v = 0`, `w = ROBOT_YAW_VEL`,
`dt = 1`, empty landmark list) advances the stored heading by exactly
`w·dt`, leaves `x` and `y` unchanged, and never decreases the trace of the
covariance. -/
theorem pure_rotation_spec (st : EKF) :
    (update st 0 ROBOT_YAW_VEL [] 1).m_mu 0 = st.m_mu 0 ∧
    (update st 0 ROBOT_YAW_VEL [] 1).m_mu 1 = st.m_mu 1 ∧
    (update st 0 ROBOT_YAW_VEL [] 1).m_mu 2 = st.m_mu 2 + ROBOT_YAW_VEL * 1 ∧
    Matrix.trace st.m_cov ≤ Matrix.trace (update st 0 ROBOT_YAW_VEL [] 1).m_cov := by
  have hyv : ROBOT_YAW_VEL = Real.pi / 3 := by
    rw [ROBOT_YAW_VEL]
    ring
  have hpos : 0 < ROBOT_YAW_VEL := by
    rw [hyv]
    positivity
  have hE : |ROBOT_YAW_VEL| > EPS := by
    rw [abs_of_pos hpos, hyv, EPS]
    nlinarith [Real.pi_gt_three]
  refine ⟨?_, ?_, ?_, ?_⟩
  · rw [update_nil_mu]
    simp only [predictMu]
    rw [if_pos hE]
    simp
  · rw [update_nil_mu]
    simp only [predictMu]
    rw [if_pos hE]
    simp
  · rw [update_nil_mu]
    simp only [predictMu]
    rw [if_pos hE]
    simp
  · rw [update_nil_cov, predictCov]
    have hG : Gmat (st.m_mu 2) 0 ROBOT_YAW_VEL 1 = 1 := by
      simp only [Gmat]
      rw [if_pos hE]
      ext i j
      fin_cases i <;> fin_cases j <;>
        simp [Matrix.one_apply, Matrix.vecHead, Matrix.vecTail]
    rw [hG, Matrix.one_mul, Matrix.transpose_one, Matrix.mul_one, Matrix.trace_add]
    have hnn : 0 ≤ Matrix.trace (Vmat (st.m_mu 2) 0 ROBOT_YAW_VEL 1 *
        Mmat 0 ROBOT_YAW_VEL * (Vmat (st.m_mu 2) 0 ROBOT_YAW_VEL 1)ᵀ) := by
      simp only [Mmat]
      exact trace_VMV_nonneg _ _ _ (sq_nonneg _) (sq_nonneg _)
    linarith

lemma atan2_zero_one : atan2 0 1 = 0 := by
  unfold atan2
  rw [if_pos (by norm_num : (0:ℝ) < 1)]
  norm_num [Real.arctan_zero]

lemma atan2_one_zero : atan2 1 0 = Real.pi / 2 := by
  unfold atan2
  rw [if_neg (by norm_num), if_neg (by norm_num), if_pos (by norm_num : (0:ℝ) < 1)]

lemma sqrt_nine : Real.sqrt 9 = 3 := by
  rw [show (9 : ℝ) = 3 ^ 2 by norm_num, Real.sqrt_sq (by norm_num : (0:ℝ) ≤ 3)]

lemma sqrt_four : Real.sqrt 4 = 2 := by
  rw [show (4 : ℝ) = 2 ^ 2 by norm_num, Real.sqrt_sq (by norm_num : (0:ℝ) ≤ 2)]

lemma eig_le (X : Matrix (Fin 2) (Fin 2) ℝ) : eigMin X ≤ eigMax X := by
  unfold eigMin eigMax
  have := Real.sqrt_nonneg (((X 0 0 - X 1 1) / 2) ^ 2 + X 1 0 ^ 2)
  linarith

lemma ellipse_eq_major (X : Matrix (Fin 2) (Fin 2) ℝ) :
    ellipse X = (Real.sqrt (eigMax X), Real.sqrt (eigMin X),
      atan2 (eigVecMax X 1) (eigVecMax X 0)) := by
  unfold ellipse
  rw [if_neg (not_lt.mpr (Real.sqrt_le_sqrt (eig_le X)))]

lemma eigMax_eigen (X : Matrix (Fin 2) (Fin 2) ℝ) (hsym : X 1 0 = X 0 1) :
    eigVecMax X ≠ 0 ∧ X.mulVec (eigVecMax X) = eigMax X • eigVecMax X := by
  have hr2 : Real.sqrt (((X 0 0 - X 1 1) / 2) ^ 2 + X 1 0 ^ 2) ^ 2 =
      ((X 0 0 - X 1 1) / 2) ^ 2 + X 1 0 ^ 2 := Real.sq_sqrt (by positivity)
  have hsym' : X 0 1 = X 1 0 := hsym.symm
  unfold eigVecMax
  by_cases hb : X 1 0 = 0
  · rw [if_pos hb]
    have hb' : X 0 1 = 0 := hsym'.trans hb
    by_cases hcmp : X 0 0 > X 1 1
    · rw [if_pos hcmp]
      have hmax : eigMax X = X 0 0 := by
        unfold eigMax
        rw [hb]
        rw [show ((X 0 0 - X 1 1) / 2) ^ 2 + (0:ℝ) ^ 2 = ((X 0 0 - X 1 1) / 2) ^ 2 by ring]
        rw [Real.sqrt_sq (by linarith : (0:ℝ) ≤ (X 0 0 - X 1 1) / 2)]
        ring
      refine ⟨?_, ?_⟩
      · intro h
        have := congrFun h 0
        simp at this
      · funext i
        fin_cases i <;>
          simp [Matrix.mulVec, Matrix.dotProduct, Fin.sum_univ_two, hb, hb', hmax]
    · rw [if_neg hcmp]
      push_neg at hcmp
      have hmax : eigMax X = X 1 1 := by
        unfold eigMax
        rw [hb]
        rw [show ((X 0 0 - X 1 1) / 2) ^ 2 + (0:ℝ) ^ 2 = ((X 1 1 - X 0 0) / 2) ^ 2 by ring]
        rw [Real.sqrt_sq (by linarith : (0:ℝ) ≤ (X 1 1 - X 0 0) / 2)]
        ring
      refine ⟨?_, ?_⟩
      · intro h
        have := congrFun h 1
        simp at this
      · funext i
        fin_cases i <;>
          simp [Matrix.mulVec, Matrix.dotProduct, Fin.sum_univ_two, hb, hb', hmax]
  · rw [if_neg hb]
    have hchar : eigMax X ^ 2 - (X 0 0 + X 1 1) * eigMax X +
        (X 0 0 * X 1 1 - X 1 0 ^ 2) = 0 := by
      unfold eigMax
      linear_combination hr2
    refine ⟨?_, ?_⟩
    · intro h
      have := congrFun h 0
      simp at this
      exact hb this
    · funext i
      fin_cases i <;>
        simp [Matrix.mulVec, Matrix.dotProduct, Fin.sum_univ_two, hsym']
      all_goals first
      | ring1
      | linear_combination (-1 : ℝ) * hchar

/-- Claim C8: for a symmetric positive-semidefinite 2×2 input, `ellipse`
returns semi-axis lengths equal to the square roots of the two eigenvalues
(the characteristic polynomial factors as `(t − eigMin)·(t − eigMax)`), the
larger reported as major, and the orientation equal to the `atan2` angle of
an eigenvector of the larger eigenvalue; in particular `diag(4, 1)` yields
`(2, 1, 0)` and `diag(1, 4)` yields `(2, 1, π/2)`. -/
theorem ellipse_spec :
    (∀ X : Matrix (Fin 2) (Fin 2) ℝ, X 1 0 = X 0 1 →
      (∀ v : Fin 2 → ℝ, 0 ≤ Matrix.dotProduct v (X.mulVec v)) →
      ((ellipse X).1 = Real.sqrt (eigMax X) ∧
       (ellipse X).2.1 = Real.sqrt (eigMin X) ∧
       (ellipse X).2.1 ≤ (ellipse X).1 ∧
       (∀ t : ℝ, (t • (1 : Matrix (Fin 2) (Fin 2) ℝ) - X).det =
          (t - eigMin X) * (t - eigMax X)) ∧
       (∃ v : Fin 2 → ℝ, v ≠ 0 ∧ X.mulVec v = eigMax X • v ∧
          (ellipse X).2.2 = atan2 (v 1) (v 0)))) ∧
    ellipse !![(4 : ℝ), 0; 0, 1] = (2, 1, 0) ∧
    ellipse !![(1 : ℝ), 0; 0, 4] = (2, 1, Real.pi / 2) := by
  refine ⟨?_, ?_, ?_⟩
  · intro X hsym hpsd
    have hr2 : Real.sqrt (((X 0 0 - X 1 1) / 2) ^ 2 + X 1 0 ^ 2) ^ 2 =
        ((X 0 0 - X 1 1) / 2) ^ 2 + X 1 0 ^ 2 := Real.sq_sqrt (by positivity)
    have he := ellipse_eq_major X
    have heig := eigMax_eigen X hsym
    refine ⟨by rw [he], by rw [he], ?_, ?_, eigVecMax X, heig.1, heig.2, by rw [he]⟩
    · rw [he]
      exact Real.sqrt_le_sqrt (eig_le X)
    · intro t
      rw [Matrix.det_fin_two]
      simp only [Matrix.sub_apply, Matrix.smul_apply, Matrix.one_apply_eq,
        Matrix.one_apply_ne (by decide : (0 : Fin 2) ≠ 1),
        Matrix.one_apply_ne (by decide : (1 : Fin 2) ≠ 0), smul_eq_mul]
      unfold eigMin eigMax
      linear_combination hr2 + X 1 0 * hsym
  · have hmin : eigMin !![(4 : ℝ), 0; 0, 1] = 1 := by
      unfold eigMin
      norm_num
      rw [sqrt_nine, sqrt_four]
      norm_num
    have hmax : eigMax !![(4 : ℝ), 0; 0, 1] = 4 := by
      unfold eigMax
      norm_num
      rw [sqrt_nine, sqrt_four]
      norm_num
    have hvec : eigVecMax !![(4 : ℝ), 0; 0, 1] = ![1, 0] := by
      unfold eigVecMax
      norm_num
    rw [ellipse_eq_major, hmin, hmax, hvec]
    rw [sqrt_four, Real.sqrt_one]
    norm_num [atan2_zero_one]
  · have hmin : eigMin !![(1 : ℝ), 0; 0, 4] = 1 := by
      unfold eigMin
      norm_num
      rw [sqrt_nine, sqrt_four]
      norm_num
    have hmax : eigMax !![(1 : ℝ), 0; 0, 4] = 4 := by
      unfold eigMax
      norm_num
      rw [sqrt_nine, sqrt_four]
      norm_num
    have hvec : eigVecMax !![(1 : ℝ), 0; 0, 4] = ![0, 1] := by
      unfold eigVecMax
      norm_num
    rw [ellipse_eq_major, hmin, hmax, hvec]
    rw [sqrt_four, Real.sqrt_one]
    norm_num [atan2_one_zero]

/-- Witness for C8's general part at the concrete symmetric PSD input
`diag(4, 1)` (the quadratic form `4·v₀² + v₁²` is nonnegative). -/
theorem ellipse_spec_witness :
    (ellipse !![(4 : ℝ), 0; 0, 1]).1 = Real.sqrt (eigMax !![(4 : ℝ), 0; 0, 1]) ∧
    (ellipse !![(4 : ℝ), 0; 0, 1]).2.1 ≤ (ellipse !![(4 : ℝ), 0; 0, 1]).1 ∧
    ((5 : ℝ) • (1 : Matrix (Fin 2) (Fin 2) ℝ) - !![(4 : ℝ), 0; 0, 1]).det =
      (5 - eigMin !![(4 : ℝ), 0; 0, 1]) * (5 - eigMax !![(4 : ℝ), 0; 0, 1]) := by
  have h := ellipse_spec.1 !![(4 : ℝ), 0; 0, 1] (by norm_num)
    (fun v => by
      simp [Matrix.dotProduct, Matrix.mulVec, Fin.sum_univ_two]
      nlinarith [sq_nonneg (v 0), sq_nonneg (v 1)])
  exact ⟨h.1, h.2.2.1, h.2.2.2.1 5⟩

end EKFL

end
